import Mathlib

/-!
Verification of the z80dismblr disassembler core against its specification.

The definitions below are a shallow embedding of the TypeScript sources:
`src/basememory.ts`, `src/memory.ts`, `src/disassembler/disasm.ts` and the
`NumberType` enumeration.  The modules `src/disassembler/memory.ts`
(memory attributes), `src/disassembler/opcode.ts` (opcode records) and
`src/disassembler/dislabel.ts` (label records) are not present in the
source tree; data types for them are modelled from the specification and
are marked as such.  Machine integers are modelled as `Nat`/`Int` with
explicit wrapping where the source masks addresses.
-/

/-- `MAX_MEM_SIZE = 0x10000`, from `basememory.ts`. -/
def MAX_MEM_SIZE : Nat := 0x10000

/-- The priority-ordered label/number type enumeration from
`numbertype.ts` (`const enum NumberType`).  The constructors appear in the
source order; `NumberType.prio` gives the numeric value the enum assigns. -/
inductive NumberType where
  | NONE
  | CODE_LOCAL_LBL
  | CODE_LOCAL_LOOP
  | CODE_LBL
  | CODE_SUB
  | CODE_RST
  | RELATIVE_INDEX
  | NUMBER_BYTE
  | NUMBER_WORD
  | NUMBER_WORD_BIG_ENDIAN
  | DATA_LBL
  | PORT_LBL
deriving DecidableEq

/-- The numeric enum value of a `NumberType` (0 for `NONE` upward), the
order used by `label.type < type` comparisons in `disasm.ts`. -/
def NumberType.prio : NumberType → Nat
  | .NONE => 0
  | .CODE_LOCAL_LBL => 1
  | .CODE_LOCAL_LOOP => 2
  | .CODE_LBL => 3
  | .CODE_SUB => 4
  | .CODE_RST => 5
  | .RELATIVE_INDEX => 6
  | .NUMBER_BYTE => 7
  | .NUMBER_WORD => 8
  | .NUMBER_WORD_BIG_ENDIAN => 9
  | .DATA_LBL => 10
  | .PORT_LBL => 11

/-- Modelled from the spec: the per-byte memory attribute flags of the
disassembler's memory module (`src/disassembler/memory.ts`, absent from
the source tree): `ASSIGNED`, `CODE`, `CODE_FIRST`.  The `DATA` flag is
set only by the emitter and is not used in any analysis decision, so it
is omitted here. -/
structure MemAttr where
  assigned : Bool
  code : Bool
  codeFirst : Bool
deriving DecidableEq

/-- Modelled from the spec: a decoded instruction record as produced by
`Opcode.getOpcodeAt` (`src/disassembler/opcode.ts`, absent from the source
tree): mnemonic, length in bytes, resolved immediate value, immediate
value kind, and the `BRANCH_ADDRESS`/`CALL`/`STOP` flags. -/
structure Opcode where
  name : String
  length : Nat
  value : Nat
  valueType : NumberType
  branchAddress : Bool
  callFlag : Bool
  stop : Bool
deriving DecidableEq

/-- Modelled from the spec: a label record (`src/disassembler/dislabel.ts`,
absent from the source tree): type, optional name, referrer set, and the
`isEqu`/`isFixed`/`belongsToInterrupt` flags.  The callee list (`calls`) is
used only for presentation and is not needed by the claims below. -/
structure DisLabel where
  type : NumberType
  name : Option String
  references : Finset Nat
  isEqu : Bool
  isFixed : Bool
  belongsToInterrupt : Bool
deriving DecidableEq

/-- Modelled from the spec: `new DisLabel(type)` — a fresh label of the
given type with no name, no referrers and all flags cleared. -/
def newDisLabel (ty : NumberType) : DisLabel :=
  { type := ty, name := none, references := ∅,
    isEqu := false, isFixed := false, belongsToInterrupt := false }

/-- The label store `this.labels : Map<number,DisLabel>`, viewed as a
partial map from addresses to labels. -/
abbrev LabelMap : Type := Nat → Option DisLabel

/-- Point update of a label map (`this.labels.set(address, label)`). -/
def LabelMap.setAt (m : LabelMap) (address : Nat) (l : DisLabel) : LabelMap :=
  fun a => if a = address then some l else m a

/-- `BaseMemory` from `src/basememory.ts`: a byte area with a start
address and a size.  `memory i` is the byte stored at index `i` of the
underlying `Uint8Array`. -/
structure BaseMemory where
  startAddress : Nat
  size : Nat
  memory : Nat → Nat

/-- `BaseMemory.getValueAt`: the address is masked to 16 bits
(`address &= MAX_MEM_SIZE-1`) and then indexed relative to
`startAddress`. -/
def BaseMemory.getValueAt (m : BaseMemory) (address : Nat) : Nat :=
  m.memory ((address % MAX_MEM_SIZE) - m.startAddress)

/-- `BaseMemory.getWordValueAt`:
`this.getValueAt(address) + 256*this.getValueAt(address+1)`. -/
def BaseMemory.getWordValueAt (m : BaseMemory) (address : Nat) : Nat :=
  m.getValueAt address + 256 * m.getValueAt (address + 1)

/-- The `Memory` class of the top-level `src/memory.ts`: a flat
64 KiB byte array. -/
structure Memory where
  memory : Nat → Nat

/-- `Memory.getValueAt`: `this.memory[address&(MAX_MEM_SIZE-1)]`. -/
def Memory.getValueAt (m : Memory) (address : Nat) : Nat :=
  m.memory (address % MAX_MEM_SIZE)

/-- `Memory.getWordValueAt` of `src/memory.ts`, exactly as written there:
`this.memory[address&(MAX_MEM_SIZE-1)] * 256*this.memory[address&(MAX_MEM_SIZE-1)]`. -/
def Memory.getWordValueAt (m : Memory) (address : Nat) : Nat :=
  m.memory (address % MAX_MEM_SIZE) * 256 * m.memory (address % MAX_MEM_SIZE)

/-- `Disassembler.setFoundLabel` (`disasm.ts`): create a label of the given
type (marking it `isEqu` when the attribute lacks `ASSIGNED`), or promote
an existing label's type when the incoming type has higher priority; then
add every reference address different from the label's own address. -/
def setFoundLabel (labels : LabelMap) (address : Nat)
    (referenceAddresses : Finset Nat) (ty : NumberType) (attr : MemAttr) :
    LabelMap :=
  let label :=
    match labels address with
    | some l => if l.type.prio < ty.prio then { l with type := ty } else l
    | none => { newDisLabel ty with isEqu := !attr.assigned }
  let label' := { label with
    references := label.references ∪ referenceAddresses.erase address }
  labels.setAt address label'

/-- A concrete memory image holding byte 1 at address 0 and byte 2 at
address 1 (all other bytes 0); used to evaluate `Memory.getWordValueAt`. -/
def c1mem : Memory :=
  ⟨fun a => if a = 0 then 1 else if a = 1 then 2 else 0⟩

/-- A concrete label record for evaluating `setFoundLabel`: a
`CODE_LBL` referenced from address 8. -/
def c2lbl : DisLabel :=
  { type := .CODE_LBL, name := none, references := {8},
    isEqu := false, isFixed := false, belongsToInterrupt := false }

/-- The label map holding `c2lbl` at address 16 and nothing else. -/
def c2labels : LabelMap :=
  fun a => if a = 16 then some c2lbl else none

/-- The warnings emitted over the `'warning'` event during pass 1 and by
`getDisassembly`, modelled as structured events whose fields are exactly
the values interpolated into the emitted message strings in `disasm.ts`. -/
inductive DisWarning where
  /-- `'Trying to disassemble unassigned memory area at 0x' + address + '.'` -/
  | unassignedArea (address : Nat)
  /-- `'Aborting disassembly: Ambiguous disassembly: Trying to disassemble
  opcode "' + opcode.name + '" at address 0x' + address + ' but address 0x'
  + memAddress + ' alrady contains opcode "' + otherOpcode.name + '".'` -/
  | ambiguousOverlap (opcodeName : String) (address : Nat)
      (otherName : String) (memAddress : Nat)
  /-- `'Aborting disassembly: Ambiguous disassembly: encountered branch
  instruction into the middle of an opcode. Opcode "' + opcode.name + '" at
  address 0x' + opcodeAddress + ' would branch into "' + branchOpcode.name
  + '" at address 0x' + branchOpcodeAddress + '.'` -/
  | ambiguousBranch (opcodeName : String) (opcodeAddress : Nat)
      (branchName : String) (branchOpcodeAddress : Nat)
  /-- `'No disassembly was done.'` -/
  | noDisassembly
  /-- `'Address: ' + address + 'h. A subroutine was found that calls itself
  recursively but is not called from any other location.'` -/
  | recursiveOnly (address : Nat)
deriving DecidableEq

/-- The two warnings that abort pass 1 (`return` out of `collectLabels`):
an ambiguous overlapping decode or a branch into the middle of an
instruction. -/
def IsAmbiguous : DisWarning → Prop
  | .ambiguousOverlap _ _ _ _ => True
  | .ambiguousBranch _ _ _ _ => True
  | _ => False

/-- The mutable state pass 1 works on: the per-address attributes of the
disassembler's memory, the label store, the address queue
(`this.addressQueue`, FIFO: `shift` pops the head, `push` appends) and
the warnings emitted so far. -/
structure DisasmState where
  attrs : Nat → MemAttr
  labels : LabelMap
  queue : List Nat
  warnings : List DisWarning

/-- The backward scan shared by `disassembleForLabel` and
`adjustSelfModifyingLabels`: starting one byte below `address`, walk at
most 4 bytes down looking for a `CODE_FIRST` byte.  The source asserts
that the scan never walks more than 4 bytes (`assert` on a distance > 4);
`none` models that assertion firing. -/
def scanBackCodeFirst (attrs : Nat → MemAttr) (address : Nat) : Option Nat :=
  if (attrs (address - 1)).codeFirst then some (address - 1)
  else if (attrs (address - 2)).codeFirst then some (address - 2)
  else if (attrs (address - 3)).codeFirst then some (address - 3)
  else if (attrs (address - 4)).codeFirst then some (address - 4)
  else none

/-- The partial-decode check of `collectLabels`: the first address among
`address+1 … address+len-1` that already carries `CODE`, if any. -/
def firstOverlap (attrs : Nat → MemAttr) (address len : Nat) : Option Nat :=
  (List.range' (address + 1) (len - 1)).find? (fun a => (attrs a).code)

/-- `this.memory.addAttributeAt(address, 1, MemAttribute.CODE_FIRST)`. -/
def setCodeFirstAt (attrs : Nat → MemAttr) (address : Nat) : Nat → MemAttr :=
  fun a => if a = address then { attrs a with codeFirst := true } else attrs a

/-- `this.memory.addAttributeAt(address, len, MemAttribute.CODE)`. -/
def setCodeAt (attrs : Nat → MemAttr) (address len : Nat) : Nat → MemAttr :=
  fun a =>
    if address ≤ a ∧ a < address + len then { attrs a with code := true }
    else attrs a

/-- The attribute marking done for one decoded instruction in
`collectLabels`: `CODE_FIRST` on the first byte, `CODE` on all bytes. -/
def markCode (st : DisasmState) (address len : Nat) : DisasmState :=
  { st with attrs := setCodeAt (setCodeFirstAt st.attrs address) address len }

/-- `Disassembler.disassembleForLabel` (`disasm.ts`): for a
`BRANCH_ADDRESS` opcode, compute the label type (backward relative jump
becomes `CODE_LOCAL_LOOP`; `JP` to unassigned memory becomes `CODE_SUB`),
set the label, abort (`false`) when the target is `CODE` but not
`CODE_FIRST`, and otherwise queue an assigned, not yet disassembled
target.  For a `DATA_LBL` immediate, set the label without queueing. -/
def disassembleForLabel (decode : Nat → Opcode) (st : DisasmState)
    (opcodeAddress : Nat) (opcode : Opcode) : DisasmState × Bool :=
  if opcode.branchAddress then
    let branchAddress := opcode.value
    let attr := st.attrs branchAddress
    let vType :=
      if opcode.valueType = NumberType.CODE_LOCAL_LBL then
        if branchAddress ≤ opcodeAddress then NumberType.CODE_LOCAL_LOOP
        else opcode.valueType
      else if opcode.valueType = NumberType.CODE_LBL then
        if !attr.assigned then NumberType.CODE_SUB else opcode.valueType
      else opcode.valueType
    let st1 : DisasmState :=
      { st with labels :=
          setFoundLabel st.labels branchAddress {opcodeAddress} vType attr }
    if attr.code then
      if !attr.codeFirst then
        match scanBackCodeFirst st.attrs branchAddress with
        | some branchOpcodeAddress =>
          ({ st1 with warnings := st1.warnings ++
              [DisWarning.ambiguousBranch opcode.name opcodeAddress
                (decode branchOpcodeAddress).name branchOpcodeAddress] },
           false)
        | none => (st1, false)
      else (st1, true)
    else
      if attr.assigned then
        ({ st1 with queue := st1.queue ++ [branchAddress] }, true)
      else (st1, true)
  else if opcode.valueType = NumberType.DATA_LBL then
    let labels1 :=
      setFoundLabel st.labels opcode.value {opcodeAddress} opcode.valueType
        (st.attrs opcode.value)
    ({ st with labels := labels1 }, true)
  else (st, true)

/-- The inner do-while loop of `Disassembler.collectLabels`: linearly
decode from `address` until the byte is already `CODE`, lacks `ASSIGNED`
(warning), or a `STOP` opcode ends the trace.  The returned flag is true
when the whole disassembly is aborted (the `return` statements of the
source).  `fuel` bounds the recursion; the source loop always terminates
on the 64 KiB address space. -/
def collectFrom (decode : Nat → Opcode) : Nat → Nat → DisasmState →
    DisasmState × Bool
  | 0, _, st => (st, false)
  | fuel + 1, address, st =>
    let attr := st.attrs address
    if attr.code then (st, false)
    else if !attr.assigned then
      ({ st with warnings := st.warnings ++
          [DisWarning.unassignedArea address] }, false)
    else
      let opcode := decode address
      match firstOverlap st.attrs address opcode.length with
      | some memAddress =>
        ({ st with warnings := st.warnings ++
            [DisWarning.ambiguousOverlap opcode.name address
              (decode memAddress).name memAddress] }, true)
      | none =>
        let r := disassembleForLabel decode (markCode st address opcode.length)
          address opcode
        if !r.2 then (r.1, true)
        else if opcode.stop then (r.1, false)
        else collectFrom decode fuel (address + opcode.length) r.1

/-- The outer queue loop of `Disassembler.collectLabels`: pop addresses
from the queue until it is empty or a trace aborts the disassembly. -/
def collectLabels (decode : Nat → Opcode) : Nat → DisasmState →
    DisasmState × Bool
  | 0, st => (st, false)
  | fuel + 1, st =>
    match st.queue with
    | [] => (st, false)
    | address :: rest =>
      let r := collectFrom decode fuel address { st with queue := rest }
      if r.2 then (r.1, true) else collectLabels decode fuel r.1

/-- The label-type rule of claim C4, written from the claim's words: the
decoder's default kind, except that a `CODE_LOCAL_LBL` whose target is at
or before the instruction becomes `CODE_LOCAL_LOOP`, and a `CODE_LBL`
whose target byte lacks `ASSIGNED` becomes `CODE_SUB`. -/
def branchTypeSpec (defaultType : NumberType) (opcodeAddress branchAddress : Nat)
    (assigned : Bool) : NumberType :=
  if defaultType = NumberType.CODE_LOCAL_LBL ∧ branchAddress ≤ opcodeAddress then
    NumberType.CODE_LOCAL_LOOP
  else if defaultType = NumberType.CODE_LBL ∧ assigned = false then
    NumberType.CODE_SUB
  else defaultType

/-- The well-formedness invariant of the attribute array that pass 1
maintains: every byte inside an instruction (`CODE` without `CODE_FIRST`)
has the instruction's `CODE_FIRST` byte at most 4 bytes below it, so the
backward scan of `disassembleForLabel` always succeeds. -/
def AttrInv (attrs : Nat → MemAttr) : Prop :=
  ∀ a, (attrs a).code = true → (attrs a).codeFirst = false →
    (scanBackCodeFirst attrs a).isSome

/-- Concrete attributes for exercising pass 1: a fresh assigned byte at 0,
an already decoded instruction byte at 1, a decoded instruction at 4
whose second byte is 5, and unassigned memory elsewhere. -/
def c3attrs : Nat → MemAttr :=
  fun a =>
    if a = 0 then ⟨true, false, false⟩
    else if a = 1 then ⟨true, true, true⟩
    else if a = 4 then ⟨true, true, true⟩
    else if a = 5 then ⟨true, true, false⟩
    else ⟨false, false, false⟩

/-- A two-byte non-branching opcode used at address 0. -/
def c3op0 : Opcode := ⟨"LD A,n", 2, 0, .NONE, false, false, false⟩

/-- An absolute jump into address 5 (the middle of the instruction
starting at 4). -/
def c3jp : Opcode := ⟨"JP nn", 3, 5, .CODE_LBL, true, false, true⟩

/-- A one-byte filler opcode. -/
def c3nop : Opcode := ⟨"NOP", 1, 0, .NONE, false, false, false⟩

/-- A call with an assigned, not yet decoded target (address 0). -/
def c3call : Opcode := ⟨"CALL nn", 3, 0, .CODE_SUB, true, true, false⟩

/-- The concrete decode table for the pass-1 witnesses. -/
def c3decode : Nat → Opcode :=
  fun a => if a = 0 then c3op0 else if a = 3 then c3jp else c3nop

/-- The concrete pass-1 state: queue holds address 0, no labels yet. -/
def c3st : DisasmState :=
  { attrs := c3attrs, labels := fun _ => none, queue := [0], warnings := [] }

/-- One entry of the `changeMap` processing loop of
`Disassembler.adjustSelfModifyingLabels` (`disasm.ts`): scan backwards to
the enclosing `CODE_FIRST` byte, re-create the label there via
`setFoundLabel` with the same referrers and type, delete the label at the
original address, and record the (negative) offset
`addrStart - address`.  `none` from the scan models the source's
assertion that the opcode start is at most 4 bytes back. -/
def adjustOneSelfModLabel (attrs : Nat → MemAttr) (address : Nat)
    (label : DisLabel) (labels : LabelMap) (offsetLabels : Nat → Option Int) :
    LabelMap × (Nat → Option Int) :=
  match scanBackCodeFirst attrs address with
  | some addrStart =>
    let labels1 :=
      setFoundLabel labels addrStart label.references label.type
        (attrs addrStart)
    let labels2 : LabelMap := fun a => if a = address then none else labels1 a
    let offs : Int := (addrStart : Int) - (address : Int)
    (labels2, fun a => if a = address then some offs else offsetLabels a)
  | none => (labels, offsetLabels)

/-- `Disassembler.adjustSelfModifyingLabels` (`disasm.ts`): collect the
labels of type `DATA_LBL` sitting on a `CODE` byte that is not
`CODE_FIRST` (the `changeMap`), then process each entry.  `entries` is the
label store's entry list in iteration order. -/
def adjustSelfModifyingLabels (attrs : Nat → MemAttr)
    (entries : List (Nat × DisLabel)) (labels : LabelMap)
    (offsetLabels : Nat → Option Int) : LabelMap × (Nat → Option Int) :=
  let changeList := entries.filter (fun e =>
    decide (e.2.type = NumberType.DATA_LBL) && (attrs e.1).code &&
      !(attrs e.1).codeFirst)
  changeList.foldl
    (fun st e => adjustOneSelfModLabel attrs e.1 e.2 st.1 st.2)
    (labels, offsetLabels)

/-- The JavaScript string coercion of an optional label name
(`label.name + offsString` yields `"undefined…"` for an unnamed label). -/
def labelNameStr (l : DisLabel) : String := l.name.getD "undefined"

/-- The convert-to-label hook installed by the `Disassembler` constructor
(`disasm.ts`): look the value up in the label store; failing that, follow
an offset label, render the anchor's name followed by the inverted offset
(`''+(-offs)` when `offs > 0`, `'+'+(-offs)` otherwise).  A zero offset is
falsy in the source (`if(offs)`), and a lookup at a negative key misses. -/
def convertToLabel (labels : LabelMap) (offsetLabels : Nat → Option Int)
    (value : Nat) : Option String :=
  match labels value with
  | some label => some (labelNameStr label)
  | none =>
    match offsetLabels value with
    | none => none
    | some offs =>
      if offs = 0 then none
      else
        let key : Int := (value : Int) + offs
        if key < 0 then none
        else
          match labels key.toNat with
          | none => none
          | some label =>
            some (labelNameStr label ++
              (if offs > 0 then toString (-offs) else "+" ++ toString (-offs)))

/-- Processing of one address of a subroutine's reachable set in
`Disassembler.findLocalLabelsInSubroutines` (`disasm.ts`): skip labels
that are not `CODE_LBL`/`CODE_SUB`, fixed labels and labels with a
referrer outside the set; otherwise demote to `CODE_LOCAL_LBL`, or to
`CODE_LOCAL_LOOP` when some referrer `r` satisfies
`0 ≤ r - addr ≤ 128`. -/
def localAdjust (addrsArray : List Nat) (addr : Nat) :
    Option DisLabel → Option DisLabel
  | none => none
  | some addrLabel =>
    if addrLabel.type ≠ NumberType.CODE_LBL ∧
        addrLabel.type ≠ NumberType.CODE_SUB then some addrLabel
    else if addrLabel.isFixed then some addrLabel
    else if ∃ r ∈ addrLabel.references, r ∉ addrsArray then some addrLabel
    else
      some { addrLabel with type :=
        if ∃ r ∈ addrLabel.references,
            0 ≤ (r : Int) - (addr : Int) ∧ (r : Int) - (addr : Int) ≤ 128
        then NumberType.CODE_LOCAL_LOOP
        else NumberType.CODE_LOCAL_LBL }

/-- One iteration of the per-address loop of
`findLocalLabelsInSubroutines`: the start address itself is skipped. -/
def processLocalLabel (addrsArray : List Nat) (startAddress : Nat)
    (m : LabelMap) (addr : Nat) : LabelMap :=
  if addr = startAddress then m
  else fun x => if x = addr then localAdjust addrsArray addr (m addr) else m x

/-- The per-subroutine body of `findLocalLabelsInSubroutines`, iterating
the subroutine's reachable address set `addrsArray` (the output of
`getSubroutineAddresses`, which never pushes a duplicate). -/
def findLocalLabelsIn (addrsArray : List Nat) (startAddress : Nat)
    (m : LabelMap) : LabelMap :=
  addrsArray.foldl (processLocalLabel addrsArray startAddress) m

/-- Concrete attributes for the self-modifying-label claim: a two-byte
instruction at 0x1000 whose second byte is 0x1001. -/
def c5attrs : Nat → MemAttr :=
  fun a =>
    if a = 4096 then ⟨true, true, true⟩
    else if a = 4097 then ⟨true, true, false⟩
    else ⟨false, false, false⟩

/-- A `DATA_LBL` pointing into the middle of the instruction, referenced
from address 8192. -/
def c5lbl : DisLabel :=
  { type := .DATA_LBL, name := none, references := {8192},
    isEqu := false, isFixed := false, belongsToInterrupt := false }

/-- The label map holding `c5lbl` at the mid-instruction address 4097. -/
def c5labels : LabelMap :=
  fun a => if a = 4097 then some c5lbl else none

/-- The moved label after pass 11 named it `SELF_MOD1`. -/
def c5anchor : DisLabel :=
  { type := .DATA_LBL, name := some "SELF_MOD1", references := {8192},
    isEqu := false, isFixed := false, belongsToInterrupt := false }

/-- The label map used at rendering time: the anchor at 4096 only. -/
def c5render : LabelMap :=
  fun a => if a = 4096 then some c5anchor else none

/-- The offset-label map recording `offsetLabels[0x1001] = -1`. -/
def c5offsets : Nat → Option Int :=
  fun a => if a = 4097 then some (-1) else none

/-- A non-fixed `CODE_SUB` at 103 referenced only from 110 (inside the
set, 7 bytes forward). -/
def c6l103 : DisLabel :=
  { type := .CODE_SUB, name := none, references := {110},
    isEqu := false, isFixed := false, belongsToInterrupt := false }

/-- A non-fixed `CODE_LBL` at 110 referenced from 50 (outside the set). -/
def c6l110 : DisLabel :=
  { type := .CODE_LBL, name := none, references := {50},
    isEqu := false, isFixed := false, belongsToInterrupt := false }

/-- The label map for the local-label-scoping witness. -/
def c6map : LabelMap :=
  fun a =>
    if a = 103 then some c6l103
    else if a = 110 then some c6l110
    else none

/-- The `SubroutineStatistics` record of `disasm.ts`. -/
structure Stats where
  sizeInBytes : Nat
  countOfInstructions : Nat
  CyclomaticComplexity : Nat
deriving DecidableEq

/-- Component-wise accumulation (`statistics.x += addStat.x`). -/
def statsPlus (a b : Stats) : Stats :=
  { sizeInBytes := a.sizeInBytes + b.sizeInBytes,
    countOfInstructions := a.countOfInstructions + b.countOfInstructions,
    CyclomaticComplexity := a.CyclomaticComplexity + b.CyclomaticComplexity }

/-- The subroutine check on an optional label used by
`countAddressStatistic` both for branch targets (`isSUB`) and for
flow-through stops: type `CODE_SUB` or `CODE_RST`. -/
def isSUBLabel : Option DisLabel → Bool
  | some l => decide (l.type = NumberType.CODE_SUB) ||
      decide (l.type = NumberType.CODE_RST)
  | none => false

/-- JS `name.indexOf(',') >= 0`: the mnemonic contains a comma. -/
def containsComma (s : String) : Bool := s.data.contains ','

/-- JS `String.prototype.toUpperCase` over the mnemonic characters
(mnemonics are ASCII). -/
def toUpperChars (s : List Char) : List Char := s.map Char.toUpper

/-- JS `String.prototype.startsWith` over character lists. -/
def startsWithChars : List Char → List Char → Bool
  | _, [] => true
  | [], _ :: _ => false
  | a :: s, b :: t => a = b && startsWithChars s t

/-- JS `name.toUpperCase().startsWith("RET ")`: the mnemonic is a
conditional return. -/
def isCondRET (s : String) : Bool :=
  startsWithChars (toUpperChars s.data) "RET ".data

/-- The cyclomatic-complexity contribution of one instruction in
`countAddressStatistic` (`disasm.ts`): a `BRANCH_ADDRESS` opcode counts
when its mnemonic contains a comma; otherwise the opcode counts when its
upper-cased mnemonic starts with `"RET "`. -/
def contribOf (op : Opcode) : Nat :=
  if op.branchAddress then (if containsComma op.name then 1 else 0)
  else if isCondRET op.name then 1 else 0

/-- `Disassembler.countAddressStatistic` (`disasm.ts`): walk from
`address`, stopping at unassigned or already visited bytes; accumulate
size, instruction count and cyclomatic-complexity contributions; recurse
into non-call branch targets that are not subroutines; stop at `STOP`
opcodes and when flowing into another subroutine.  The shared `addresses`
array is threaded through, and `fuel` bounds the recursion. -/
def countAddressStatistic (labels : LabelMap) (attrs : Nat → MemAttr)
    (decode : Nat → Opcode) : Nat → Nat → List Nat → Stats × List Nat
  | 0, _, visited => (⟨0, 0, 0⟩, visited)
  | fuel + 1, address, visited =>
    if (attrs address).assigned = false then (⟨0, 0, 0⟩, visited)
    else if address ∈ visited then (⟨0, 0, 0⟩, visited)
    else
      let visited1 := visited ++ [address]
      let op := decode address
      let base : Stats := ⟨op.length, 1, contribOf op⟩
      let rB :=
        if op.branchAddress && !op.callFlag && !(isSUBLabel (labels op.value))
        then countAddressStatistic labels attrs decode fuel op.value visited1
        else ((⟨0, 0, 0⟩ : Stats), visited1)
      if op.stop || isSUBLabel (labels (address + op.length)) then
        (statsPlus base rB.1, rB.2)
      else
        let rN := countAddressStatistic labels attrs decode fuel
          (address + op.length) rB.2
        (statsPlus base (statsPlus rB.1 rN.1), rN.2)

/-- The per-label statistics of `Disassembler.countStatistics`
(`disasm.ts`): run `countAddressStatistic` from the label's address with
an empty visited array, then add 1 to the cyclomatic complexity
(`statistics.CyclomaticComplexity ++`). -/
def countStatisticsFor (labels : LabelMap) (attrs : Nat → MemAttr)
    (decode : Nat → Opcode) (fuel address : Nat) : Stats :=
  let s := (countAddressStatistic labels attrs decode fuel address []).1
  { s with CyclomaticComplexity := s.CyclomaticComplexity + 1 }

/-- Concrete attributes for the statistics claim: addresses 0–4
assigned. -/
def c8attrs : Nat → MemAttr :=
  fun a => if a < 5 then ⟨true, false, false⟩ else ⟨false, false, false⟩

/-- A conditional call (comma in the mnemonic, `CALL` flag set). -/
def c8callz : Opcode := ⟨"CALL Z,nn", 3, 100, .CODE_SUB, true, true, false⟩

/-- A conditional return (mnemonic `"RET Z"` starts with `"RET "`). -/
def c8retz : Opcode := ⟨"RET Z", 1, 0, .NONE, false, false, false⟩

/-- An unconditional return (`STOP`; `"RET"` does not start `"RET "`). -/
def c8ret : Opcode := ⟨"RET", 1, 0, .NONE, false, false, true⟩

/-- The decode table for the statistics witness: `CALL Z,nn` at 0,
`RET Z` at 3, `RET` everywhere else. -/
def c8decode : Nat → Opcode :=
  fun a => if a = 0 then c8callz else if a = 3 then c8retz else c8ret

/-- A JavaScript number as used by the font-size computation of
`getCallGraph`: an exact rational, an infinity, or `NaN`.  The actual
engine uses IEEE doubles; the degenerate case of claim C9 only involves
division by zero and multiplication by zero, which this exact model
captures faithfully. -/
inductive JSNum where
  | num (q : ℚ)
  | posInf
  | negInf
  | nan
deriving DecidableEq

/-- JS division for the cases reachable from `getCallGraph`:
`x/0` is `±Infinity` for nonzero `x` and `NaN` for `0/0`. -/
def jsDiv : JSNum → JSNum → JSNum
  | .num a, .num b =>
    if b = 0 then (if a = 0 then .nan else if 0 < a then .posInf else .negInf)
    else .num (a / b)
  | .posInf, .num b => if b < 0 then .negInf else .posInf
  | .negInf, .num b => if b < 0 then .posInf else .negInf
  | .num _, .posInf => .num 0
  | .num _, .negInf => .num 0
  | _, _ => .nan

/-- JS multiplication: `Infinity * 0 = NaN`. -/
def jsMul : JSNum → JSNum → JSNum
  | .num a, .num b => .num (a * b)
  | .posInf, .num b => if b = 0 then .nan else if 0 < b then .posInf else .negInf
  | .num a, .posInf => if a = 0 then .nan else if 0 < a then .posInf else .negInf
  | .negInf, .num b => if b = 0 then .nan else if 0 < b then .negInf else .posInf
  | .num a, .negInf => if a = 0 then .nan else if 0 < a then .negInf else .posInf
  | .posInf, .posInf => .posInf
  | .negInf, .negInf => .posInf
  | .posInf, .negInf => .negInf
  | .negInf, .posInf => .negInf
  | _, _ => .nan

/-- JS addition: adding `NaN` gives `NaN`. -/
def jsAdd : JSNum → JSNum → JSNum
  | .num a, .num b => .num (a + b)
  | .num _, .posInf => .posInf
  | .posInf, .num _ => .posInf
  | .num _, .negInf => .negInf
  | .negInf, .num _ => .negInf
  | .posInf, .posInf => .posInf
  | .negInf, .negInf => .negInf
  | _, _ => .nan

/-- The font-size computation of `Disassembler.getCallGraph`
(`disasm.ts`): `fontSizeMin = 13`, `fontSizeMax = 40`,
`fontSizeFactor = (fontSizeMax-fontSizeMin) / (statisticsMax.CC - min)`,
`fontSize = fontSizeMin + fontSizeFactor*(stats.CC - min)`. -/
def callGraphFontSize (minCC maxCC cc : Int) : JSNum :=
  let fontSizeMin : ℚ := 13
  let fontSizeMax : ℚ := 40
  let fontSizeFactor :=
    jsDiv (.num (fontSizeMax - fontSizeMin))
      (.num ((maxCC : ℚ) - (minCC : ℚ)))
  jsAdd (.num fontSizeMin)
    (jsMul fontSizeFactor (.num ((cc : ℚ) - (minCC : ℚ))))

/-- Whether a computed font size is a finite number within the claimed
bounds 13…40. -/
def fontSizeInBounds : JSNum → Bool
  | .num q => decide (13 ≤ q ∧ q ≤ 40)
  | _ => false

/-- The `Disassembler` state visible to `getDisassembly` (`disasm.ts`):
the label stores, the address queue and the optional
`disassembledLines`. -/
structure Disassembler where
  labels : LabelMap
  offsetLabels : Nat → Option Int
  addressQueue : List Nat
  disassembledLines : Option (List String)

/-- `Disassembler.getDisassembly` (`disasm.ts`): when `disassemble()` has
not produced `disassembledLines`, emit the warning
`'No disassembly was done.'` and return the empty string; otherwise join
the lines.  The returned state is the (unchanged) instance. -/
def getDisassembly (d : Disassembler) :
    Disassembler × List DisWarning × String :=
  match d.disassembledLines with
  | none => (d, [DisWarning.noDisassembly], "")
  | some lines => (d, [], String.intercalate "\n" lines)

/-- A concrete disassembler instance on which `disassemble()` never ran. -/
def c10dis : Disassembler :=
  { labels := fun _ => none, offsetLabels := fun _ => none,
    addressQueue := [5], disassembledLines := none }

/-- The whitespace skipped by JS `parseInt` (ASCII subset; trace files
are ASCII). -/
def isJsSpace (c : Char) : Bool :=
  c = ' ' || c = '\t' || c = '\n' || c = '\r' || c = '\x0b' || c = '\x0c'

/-- The value of a hexadecimal digit, if any. -/
def hexDigitVal (c : Char) : Option Nat :=
  if '0' ≤ c ∧ c ≤ '9' then some (c.toNat - '0'.toNat)
  else if 'a' ≤ c ∧ c ≤ 'f' then some (c.toNat - 'a'.toNat + 10)
  else if 'A' ≤ c ∧ c ≤ 'F' then some (c.toNat - 'A'.toNat + 10)
  else none

/-- JavaScript `parseInt(s, 16)`: skip leading whitespace, an optional
sign and an optional `0x`/`0X` prefix, then read the maximal run of hex
digits; `none` models `NaN` (no digits). -/
def jsParseIntHex (s : List Char) : Option Int :=
  let s1 := s.dropWhile isJsSpace
  let core : Bool × List Char :=
    match s1 with
    | '-' :: t => (true, t)
    | '+' :: t => (false, t)
    | _ => (false, s1)
  let s3 :=
    match core.2 with
    | '0' :: 'x' :: t => t
    | '0' :: 'X' :: t => t
    | _ => core.2
  let ds := s3.takeWhile (fun c => (hexDigitVal c).isSome)
  if ds.isEmpty then none
  else
    let v : Nat := ds.foldl (fun acc c => 16 * acc + ((hexDigitVal c).getD 0)) 0
    some (if core.1 then -(v : Int) else (v : Int))

/-- The contribution of one parsed field to the 64 Ki `buffer` array of
`useMameTraceFile`: `buffer[addr] = true` only lands on an array index —
and is later re-read by the final 0…65535 loop — for values in range;
`NaN` or negative values set no index. -/
def parsedValueSet (p : List Char) : Finset Nat :=
  match jsParseIntHex p with
  | some v => if 0 ≤ v ∧ v < 65536 then {v.toNat} else ∅
  | none => ∅

/-- The do-while loop of `Disassembler.useMameTraceFile` (`disasm.ts`),
indexed by the cursor `k`: take `trace.substr(k, 5)`; when it is five
characters ending in `':'`, record the parsed value and advance by 5;
then jump past the next newline (`trace.indexOf('\n', k) + 1`), the loop
ending when there is none (`k == 0`).  `fuel` bounds the iteration count
(`k` strictly increases). -/
def traceLoopSet (t : List Char) : Nat → Nat → Finset Nat → Finset Nat
  | 0, _, buffer => buffer
  | fuel + 1, k, buffer =>
    let addressString := (t.drop k).take 5
    let step : Finset Nat × Nat :=
      if addressString.length = 5 ∧ addressString.getD 4 ' ' = ':' then
        (buffer ∪ parsedValueSet addressString, k + 5)
      else (buffer, k)
    match (t.drop step.2).findIdx? (fun c => c = '\n') with
    | none => step.1
    | some i => traceLoopSet t fuel (step.2 + i + 1) step.1

/-- `Disassembler.useMameTraceFile` (`disasm.ts`): texts shorter than 5
characters return immediately; otherwise the loop fills the buffer and
the final loop (`for addr = 0; addr < MAX_MEM_SIZE; addr++`) pushes the
recorded addresses in ascending order. -/
def useMameTraceFile (trace : List Char) : List Nat :=
  if trace.length < 5 then []
  else (List.range MAX_MEM_SIZE).filter
    (fun addr => decide (addr ∈ traceLoopSet trace (trace.length + 1) 0 ∅))

/-- The set of addresses `useMameTraceFile` records, written structurally
over the examined suffixes: the five-character field at the current
position contributes its parsed value when its fifth character is `':'`
(consuming those five characters, which may span a newline), and
examination continues after the next remaining newline. -/
def mameSpecSet (t : List Char) : Finset Nat :=
  if h5 : (t.take 5).length = 5 ∧ (t.take 5).getD 4 ' ' = ':' then
    parsedValueSet (t.take 5) ∪
      (match (t.drop 5).findIdx? (fun c => c = '\n') with
       | none => ∅
       | some i => mameSpecSet ((t.drop 5).drop (i + 1)))
  else
    match h : t.findIdx? (fun c => c = '\n') with
    | none => ∅
    | some i => mameSpecSet (t.drop (i + 1))
termination_by t.length
decreasing_by
  · have h1 := h5.1
    rw [List.length_take] at h1
    simp only [List.length_drop]
    omega
  · cases t with
    | nil => simp at h
    | cons a s =>
      simp only [List.length_drop, List.length_cons]
      omega

/-- The claim-side notion of line prefixes: the first five characters of
every newline-separated line of the text. -/
def lineFields (t : List Char) : List (List Char) :=
  (t.splitOn '\n').map (fun l => l.take 5)

/-- The claim-side field condition: five characters long with `':'` as
the fifth character. -/
def matchingField (p : List Char) : Bool :=
  decide (p.length = 5) && decide (p.getD 4 ' ' = ':')

/-- The counterexample trace for claim C7: one line of five characters
ending in `':'` whose first four characters are not hex digits. -/
def czTrace : List Char := ['z', 'z', 'z', 'z', ':']

/-- A well-formed trace with an out-of-order duplicate for the amended
claim's witness. -/
def c7trace : List Char :=
  "8000:".data ++ ['\n'] ++ "0100:a".data ++ ['\n'] ++ "0100:b".data

/-- A variant of `c3st` whose queue holds only the unassigned address 7. -/
def c3st7 : DisasmState :=
  { attrs := c3attrs, labels := fun _ => none, queue := [7], warnings := [] }

/-- Claim C1: `getWordValueAt(a)` should be the little-endian combination
`byte(a) + 256*byte(a+1)` (addresses masked to 16 bits) for both the
`BaseMemory` and the `Memory` implementation.  `BaseMemory` satisfies the
formula, but `Memory.getWordValueAt` computes
`byte(a) * 256 * byte(a)`: with `byte(0) = 1`, `byte(1) = 2` it returns
256 instead of the little-endian word 513. -/
theorem memory_getWordValueAt_not_little_endian :
    (∀ (m : BaseMemory) (a : Nat),
      m.getWordValueAt a =
        m.memory ((a % MAX_MEM_SIZE) - m.startAddress) +
          256 * m.memory (((a + 1) % MAX_MEM_SIZE) - m.startAddress)) ∧
    c1mem.getWordValueAt 0 = 256 ∧
    c1mem.getValueAt 0 + 256 * c1mem.getValueAt 1 = 513 ∧
    c1mem.getWordValueAt 0 ≠ c1mem.getValueAt 0 + 256 * c1mem.getValueAt 1 := by
  refine ⟨fun m a => rfl, rfl, rfl, ?_⟩
  decide

/-- Claim C2: `setFoundLabel(addr, referrers, type, attr)` creates a label
of the given type when none exists (marking `isEqu` iff `attr` lacks
`ASSIGNED`); when a label exists it promotes its type to the maximum of
the existing and incoming types in the priority order and changes nothing
else; the referrers are unioned in except a referrer equal to `addr`
itself, so afterwards no referrer equals the label's own address; and
all other addresses are untouched. -/
theorem setFoundLabel_spec (labels : LabelMap) (address : Nat)
    (refs : Finset Nat) (ty : NumberType) (attr : MemAttr) :
    (labels address = none →
      setFoundLabel labels address refs ty attr address =
        some { type := ty, name := none, references := refs.erase address,
               isEqu := !attr.assigned, isFixed := false,
               belongsToInterrupt := false }) ∧
    (∀ l, labels address = some l →
      ∃ l', setFoundLabel labels address refs ty attr address = some l' ∧
        l'.type.prio = Nat.max l.type.prio ty.prio ∧
        (l'.type = l.type ∨ l'.type = ty) ∧
        l'.references = l.references ∪ refs.erase address ∧
        l'.name = l.name ∧ l'.isEqu = l.isEqu ∧ l'.isFixed = l.isFixed ∧
        l'.belongsToInterrupt = l.belongsToInterrupt) ∧
    ((∀ l, labels address = some l → address ∉ l.references) →
      ∀ l', setFoundLabel labels address refs ty attr address = some l' →
        address ∉ l'.references) ∧
    (∀ x, x ≠ address → setFoundLabel labels address refs ty attr x = labels x) := by
  refine ⟨?_, ?_, ?_, ?_⟩
  · intro h
    simp [setFoundLabel, LabelMap.setAt, h, newDisLabel]
  · intro l h
    by_cases hp : l.type.prio < ty.prio
    · refine ⟨{ l with
        type := ty
        references := l.references ∪ refs.erase address },
        ?_, ?_, Or.inr rfl, rfl, rfl, rfl, rfl, rfl⟩
      · simp [setFoundLabel, LabelMap.setAt, h, hp]
      · exact (Nat.max_eq_right (Nat.le_of_lt hp)).symm
    · refine ⟨{ l with
        references := l.references ∪ refs.erase address },
        ?_, ?_, Or.inl rfl, rfl, rfl, rfl, rfl, rfl⟩
      · simp [setFoundLabel, LabelMap.setAt, h, hp]
      · exact (Nat.max_eq_left (Nat.le_of_not_lt hp)).symm
  · intro hno l' h'
    rcases hl : labels address with _ | l
    · simp [setFoundLabel, LabelMap.setAt, hl] at h'
      rw [← h']
      simp [newDisLabel]
    · have hni := hno l hl
      by_cases hp : l.type.prio < ty.prio <;>
        simp [setFoundLabel, LabelMap.setAt, hl, hp] at h' <;>
        rw [← h'] <;> simp [hni]
  · intro x hx
    simp [setFoundLabel, LabelMap.setAt, hx]

/-- Witness for claim C2: `setFoundLabel` applied at address 16 of
`c2labels` with referrers `{16, 32}`, incoming type `CODE_SUB` and an
assigned attribute: the existing label is promoted and the
self-reference 16 is not added. -/
theorem setFoundLabel_spec_witness :
    (∃ l', setFoundLabel c2labels 16 {16, 32} .CODE_SUB ⟨true, false, false⟩ 16 =
        some l' ∧
      l'.type.prio = Nat.max c2lbl.type.prio NumberType.CODE_SUB.prio ∧
      (l'.type = c2lbl.type ∨ l'.type = .CODE_SUB) ∧
      l'.references = c2lbl.references ∪ (Finset.erase {16, 32} 16) ∧
      l'.name = c2lbl.name ∧ l'.isEqu = c2lbl.isEqu ∧
      l'.isFixed = c2lbl.isFixed ∧
      l'.belongsToInterrupt = c2lbl.belongsToInterrupt) ∧
    (∀ l', setFoundLabel c2labels 16 {16, 32} .CODE_SUB ⟨true, false, false⟩ 16 =
        some l' → 16 ∉ l'.references) ∧
    setFoundLabel c2labels 16 {16, 32} .CODE_SUB ⟨true, false, false⟩ 15 =
      c2labels 15 := by
  have h := setFoundLabel_spec c2labels 16 {16, 32} .CODE_SUB ⟨true, false, false⟩
  refine ⟨h.2.1 c2lbl rfl, h.2.2.1 ?_, h.2.2.2 15 (by decide)⟩
  intro l hl
  have he : some c2lbl = some l := hl
  have : c2lbl = l := by
    injection he
  rw [← this]
  decide

/-- The branch-type cascade of `disassembleForLabel` agrees with the
claim's rule `branchTypeSpec`. -/
theorem branchType_eq_spec (vT : NumberType) (opcodeAddress branchAddress : Nat)
    (assigned : Bool) :
    (if vT = NumberType.CODE_LOCAL_LBL then
        if branchAddress ≤ opcodeAddress then NumberType.CODE_LOCAL_LOOP else vT
      else if vT = NumberType.CODE_LBL then
        if !assigned then NumberType.CODE_SUB else vT
      else vT) =
    branchTypeSpec vT opcodeAddress branchAddress assigned := by
  simp only [branchTypeSpec]
  split_ifs <;> simp_all

/-- Claim C4: for a decoded instruction with a `BRANCH_ADDRESS` immediate,
the label type given to the target follows `branchTypeSpec` (the decoder's
default kind, promoted to `CODE_LOCAL_LOOP` for a backward relative jump
and to `CODE_SUB` for a `CODE_LBL` into unassigned memory), and the target
is queued exactly when its byte is `ASSIGNED` and not yet `CODE`. -/
theorem disassembleForLabel_branch_spec (decode : Nat → Opcode)
    (st : DisasmState) (opcodeAddress : Nat) (opcode : Opcode)
    (hbr : opcode.branchAddress = true) :
    ((disassembleForLabel decode st opcodeAddress opcode).1.labels =
      setFoundLabel st.labels opcode.value {opcodeAddress}
        (branchTypeSpec opcode.valueType opcodeAddress opcode.value
          (st.attrs opcode.value).assigned)
        (st.attrs opcode.value)) ∧
    ((disassembleForLabel decode st opcodeAddress opcode).1.queue =
        st.queue ++ [opcode.value] ↔
      ((st.attrs opcode.value).assigned = true ∧
        (st.attrs opcode.value).code = false)) ∧
    (¬((st.attrs opcode.value).assigned = true ∧
        (st.attrs opcode.value).code = false) →
      (disassembleForLabel decode st opcodeAddress opcode).1.queue = st.queue) := by
  have hv := branchType_eq_spec opcode.valueType opcodeAddress opcode.value
    (st.attrs opcode.value).assigned
  refine ⟨?_, ?_, ?_⟩ <;>
    simp only [disassembleForLabel, hbr, if_true] <;>
    simp only [hv] <;>
    cases hcode : (st.attrs opcode.value).code <;>
    cases hcf : (st.attrs opcode.value).codeFirst <;>
    cases hassigned : (st.attrs opcode.value).assigned <;>
    cases hscan : scanBackCodeFirst st.attrs opcode.value <;>
    simp_all

/-- Witness for claim C4: the call `c3call` at address 10 targets the
assigned, not yet decoded address 0, so the label is set with the
decoder's default kind and address 0 is queued. -/
theorem disassembleForLabel_branch_spec_witness :
    ((disassembleForLabel c3decode c3st 10 c3call).1.labels =
      setFoundLabel c3st.labels c3call.value {10}
        (branchTypeSpec c3call.valueType 10 c3call.value
          (c3st.attrs c3call.value).assigned)
        (c3st.attrs c3call.value)) ∧
    (disassembleForLabel c3decode c3st 10 c3call).1.queue =
      c3st.queue ++ [c3call.value] := by
  have h := disassembleForLabel_branch_spec c3decode c3st 10 c3call rfl
  exact ⟨h.1, (h.2.1).mpr (by decide)⟩

/-- The backward scan succeeds exactly when one of the four bytes below
carries `CODE_FIRST`. -/
theorem scanBack_isSome_iff (attrs : Nat → MemAttr) (a : Nat) :
    (scanBackCodeFirst attrs a).isSome ↔
      ((attrs (a - 1)).codeFirst = true ∨ (attrs (a - 2)).codeFirst = true ∨
        (attrs (a - 3)).codeFirst = true ∨ (attrs (a - 4)).codeFirst = true) := by
  unfold scanBackCodeFirst
  split_ifs <;> simp_all

/-- `setCodeAt` leaves `CODE_FIRST` alone. -/
theorem setCodeAt_codeFirst (attrs : Nat → MemAttr) (address len a : Nat) :
    (setCodeAt attrs address len a).codeFirst = (attrs a).codeFirst := by
  unfold setCodeAt
  split <;> rfl

/-- `setCodeFirstAt` sets `CODE_FIRST` at its address and leaves the
rest alone. -/
theorem setCodeFirstAt_codeFirst (attrs : Nat → MemAttr) (address a : Nat) :
    (setCodeFirstAt attrs address a).codeFirst =
      if a = address then true else (attrs a).codeFirst := by
  unfold setCodeFirstAt
  split <;> rfl

/-- `setCodeFirstAt` leaves `CODE` alone. -/
theorem setCodeFirstAt_code (attrs : Nat → MemAttr) (address a : Nat) :
    (setCodeFirstAt attrs address a).code = (attrs a).code := by
  unfold setCodeFirstAt
  split <;> rfl

/-- `setCodeAt` sets `CODE` on its range and leaves the rest alone. -/
theorem setCodeAt_code (attrs : Nat → MemAttr) (address len a : Nat) :
    (setCodeAt attrs address len a).code =
      if address ≤ a ∧ a < address + len then true else (attrs a).code := by
  unfold setCodeAt
  split <;> rfl

/-- `setCodeFirstAt`/`setCodeAt` leave `ASSIGNED` alone. -/
theorem mark_assigned (attrs : Nat → MemAttr) (address len a : Nat) :
    (setCodeAt (setCodeFirstAt attrs address) address len a).assigned =
      (attrs a).assigned := by
  unfold setCodeAt setCodeFirstAt
  split <;> split <;> rfl

/-- Marking one decoded instruction (of length 1–4, over bytes that were
not yet `CODE`) preserves the attribute invariant: the new mid-instruction
bytes find the new `CODE_FIRST` byte within the 4-byte backward scan, and
the existing ones still find theirs. -/
theorem attrInv_markCode (attrs : Nat → MemAttr) (address len : Nat)
    (hinv : AttrInv attrs) (hlen1 : 1 ≤ len) (hlen4 : len ≤ 4) :
    AttrInv (setCodeAt (setCodeFirstAt attrs address) address len) := by
  intro a ha hcf
  rw [setCodeAt_codeFirst, setCodeFirstAt_codeFirst] at hcf
  rw [setCodeAt_code, setCodeFirstAt_code] at ha
  rw [scanBack_isSome_iff]
  by_cases hin : address ≤ a ∧ a < address + len
  · have haa : a ≠ address := by
      intro h
      rw [if_pos h] at hcf
      exact absurd hcf (by simp)
    have h1 : address < a := lt_of_le_of_ne hin.1 (Ne.symm haa)
    have hAcf : (setCodeAt (setCodeFirstAt attrs address) address len address).codeFirst = true := by
      rw [setCodeAt_codeFirst, setCodeFirstAt_codeFirst, if_pos rfl]
    have hd : a - 1 = address ∨ a - 2 = address ∨ a - 3 = address := by
      omega
    rcases hd with h | h | h
    · exact Or.inl (h ▸ hAcf)
    · exact Or.inr (Or.inl (h ▸ hAcf))
    · exact Or.inr (Or.inr (Or.inl (h ▸ hAcf)))
  · rw [if_neg hin] at ha
    have haa : a ≠ address := by
      intro h
      rw [if_pos h] at hcf
      exact absurd hcf (by simp)
    rw [if_neg haa] at hcf
    have hs := hinv a ha hcf
    rw [scanBack_isSome_iff] at hs
    have hmono : ∀ x, (attrs x).codeFirst = true →
        (setCodeAt (setCodeFirstAt attrs address) address len x).codeFirst = true := by
      intro x hx
      rw [setCodeAt_codeFirst, setCodeFirstAt_codeFirst]
      split <;> simp [hx]
    rcases hs with h | h | h | h
    · exact Or.inl (hmono _ h)
    · exact Or.inr (Or.inl (hmono _ h))
    · exact Or.inr (Or.inr (Or.inl (hmono _ h)))
    · exact Or.inr (Or.inr (Or.inr (hmono _ h)))

/-- `disassembleForLabel` never changes the memory attributes. -/
theorem dFL_attrs (decode : Nat → Opcode) (st : DisasmState)
    (opcodeAddress : Nat) (opcode : Opcode) :
    ((disassembleForLabel decode st opcodeAddress opcode).1).attrs = st.attrs := by
  simp only [disassembleForLabel]
  split_ifs <;>
    first
      | rfl
      | (cases scanBackCodeFirst st.attrs opcode.value <;> rfl)

/-- When the attribute invariant holds, a `false` result of
`disassembleForLabel` comes with exactly one appended
`ambiguousBranch` warning. -/
theorem dFL_abort_warnings (decode : Nat → Opcode) (st : DisasmState)
    (opcodeAddress : Nat) (opcode : Opcode) (hinv : AttrInv st.attrs)
    (hfalse : (disassembleForLabel decode st opcodeAddress opcode).2 = false) :
    ∃ n1 a1 n2 a2,
      (disassembleForLabel decode st opcodeAddress opcode).1.warnings =
        st.warnings ++ [DisWarning.ambiguousBranch n1 a1 n2 a2] := by
  by_cases h1 : opcode.branchAddress = true
  · by_cases h2 : (st.attrs opcode.value).code = true
    · by_cases h3 : (st.attrs opcode.value).codeFirst = true
      · simp [disassembleForLabel, h1, h2, h3] at hfalse
      · have h3' : (st.attrs opcode.value).codeFirst = false := by
          simpa using h3
        rcases hs : scanBackCodeFirst st.attrs opcode.value with _ | b
        · have := hinv opcode.value h2 h3'
          rw [hs] at this
          simp at this
        · refine ⟨opcode.name, opcodeAddress, (decode b).name, b, ?_⟩
          simp [disassembleForLabel, h1, h2, h3', hs]
    · simp only [disassembleForLabel, h1, if_true] at hfalse
      have h2' : (st.attrs opcode.value).code = false := by simpa using h2
      simp [h2'] at hfalse
      split at hfalse <;> simp at hfalse
  · simp only [disassembleForLabel] at hfalse
    rw [if_neg h1] at hfalse
    split at hfalse <;> simp at hfalse

/-- `collectFrom` preserves the attribute invariant (the only attribute
change is the marking of a freshly decoded instruction). -/
theorem collectFrom_attrInv (decode : Nat → Opcode)
    (hlen : ∀ x, 1 ≤ (decode x).length ∧ (decode x).length ≤ 4) :
    ∀ fuel address st, AttrInv st.attrs →
      AttrInv ((collectFrom decode fuel address st).1.attrs) := by
  intro fuel
  induction fuel with
  | zero => intro address st h; exact h
  | succ n ih =>
    intro address st hinv
    simp only [collectFrom]
    by_cases h1 : (st.attrs address).code = true
    · rw [if_pos h1]
      exact hinv
    · rw [if_neg h1]
      by_cases h2 : (st.attrs address).assigned = true
      · have h2' : ¬((!(st.attrs address).assigned) = true) := by simp [h2]
        rw [if_neg h2']
        rcases hov : firstOverlap st.attrs address (decode address).length with _ | m
        · simp only [hov]
          have hmark : AttrInv (setCodeAt (setCodeFirstAt st.attrs address)
              address (decode address).length) :=
            attrInv_markCode st.attrs address (decode address).length hinv
              (hlen address).1 (hlen address).2
          set r := disassembleForLabel decode
            (markCode st address (decode address).length) address
            (decode address) with hrdef
          have hattrs : r.1.attrs =
              setCodeAt (setCodeFirstAt st.attrs address) address
                (decode address).length :=
            dFL_attrs decode (markCode st address (decode address).length)
              address (decode address)
          by_cases hr : r.2 = true
          · have hnr : ¬((!r.2) = true) := by simp [hr]
            rw [if_neg hnr]
            by_cases hstop : (decode address).stop = true
            · rw [if_pos hstop]
              rw [show ((r.1, false).1.attrs = r.1.attrs) from rfl, hattrs]
              exact hmark
            · rw [if_neg hstop]
              exact ih _ _ (by rw [hattrs]; exact hmark)
          · have hr' : r.2 = false := by simpa using hr
            have hnr : (!r.2) = true := by simp [hr']
            rw [if_pos hnr]
            rw [show ((r.1, true).1.attrs = r.1.attrs) from rfl, hattrs]
            exact hmark
        · simp only [hov]
          exact hinv
      · have h2' : (!(st.attrs address).assigned) = true := by
          simp only [Bool.not_eq_true] at h2
          simp [h2]
        rw [if_pos h2']
        exact hinv

/-- An abort of `collectFrom` always ends the warning list with an
ambiguous-disassembly warning. -/
theorem collectFrom_abort (decode : Nat → Opcode)
    (hlen : ∀ x, 1 ≤ (decode x).length ∧ (decode x).length ≤ 4) :
    ∀ fuel address st, AttrInv st.attrs →
      (collectFrom decode fuel address st).2 = true →
      ∃ pre w, IsAmbiguous w ∧
        (collectFrom decode fuel address st).1.warnings = pre ++ [w] := by
  intro fuel
  induction fuel with
  | zero => intro address st _ h; simp [collectFrom] at h
  | succ n ih =>
    intro address st hinv
    simp only [collectFrom]
    by_cases h1 : (st.attrs address).code = true
    · rw [if_pos h1]
      intro h
      simp at h
    · rw [if_neg h1]
      by_cases h2 : (st.attrs address).assigned = true
      · have h2' : ¬((!(st.attrs address).assigned) = true) := by simp [h2]
        rw [if_neg h2']
        rcases hov : firstOverlap st.attrs address (decode address).length with _ | m
        · simp only [hov]
          have hmark : AttrInv (setCodeAt (setCodeFirstAt st.attrs address)
              address (decode address).length) :=
            attrInv_markCode st.attrs address (decode address).length hinv
              (hlen address).1 (hlen address).2
          set r := disassembleForLabel decode
            (markCode st address (decode address).length) address
            (decode address) with hrdef
          have hattrs : r.1.attrs =
              setCodeAt (setCodeFirstAt st.attrs address) address
                (decode address).length :=
            dFL_attrs decode (markCode st address (decode address).length)
              address (decode address)
          by_cases hr : r.2 = true
          · have hnr : ¬((!r.2) = true) := by simp [hr]
            rw [if_neg hnr]
            by_cases hstop : (decode address).stop = true
            · rw [if_pos hstop]
              intro h
              simp at h
            · rw [if_neg hstop]
              exact ih _ _ (by rw [hattrs]; exact hmark)
          · have hr' : r.2 = false := by simpa using hr
            have hnr : (!r.2) = true := by simp [hr']
            rw [if_pos hnr]
            intro _
            have hw := dFL_abort_warnings decode
              (markCode st address (decode address).length) address
              (decode address) hmark hr'
            rcases hw with ⟨n1, a1, n2, a2, hw⟩
            refine ⟨st.warnings, DisWarning.ambiguousBranch n1 a1 n2 a2,
              trivial, ?_⟩
            rw [show ((r.1, true).1 = r.1) from rfl]
            rw [← hrdef] at hw
            exact hw
        · simp only [hov]
          intro _
          exact ⟨st.warnings,
            DisWarning.ambiguousOverlap (decode address).name address
              (decode m).name m, trivial, rfl⟩
      · have h2' : (!(st.attrs address).assigned) = true := by
          simp only [Bool.not_eq_true] at h2
          simp [h2]
        rw [if_pos h2']
        intro h
        simp at h

/-- An abort of the whole queue loop always ends the warning list with an
ambiguous-disassembly warning. -/
theorem collectLabels_abort (decode : Nat → Opcode)
    (hlen : ∀ x, 1 ≤ (decode x).length ∧ (decode x).length ≤ 4) :
    ∀ fuel st, AttrInv st.attrs →
      (collectLabels decode fuel st).2 = true →
      ∃ pre w, IsAmbiguous w ∧
        (collectLabels decode fuel st).1.warnings = pre ++ [w] := by
  intro fuel
  induction fuel with
  | zero => intro st _ h; simp [collectLabels] at h
  | succ n ih =>
    intro st hinv
    simp only [collectLabels]
    rcases hq : st.queue with _ | ⟨address, rest⟩
    · intro h; simp at h
    · by_cases hr : (collectFrom decode n address { st with queue := rest }).2 = true
      · simp only [hr, if_true]
        intro _
        exact collectFrom_abort decode hlen n address _ hinv hr
      · have hr' : (collectFrom decode n address { st with queue := rest }).2 = false := by
          simpa using hr
        simp only [hr', Bool.false_eq_true, if_false]
        exact ih _ (collectFrom_attrInv decode hlen n address _ hinv)

/-- One trace reaching an unassigned byte appends exactly one warning and
ends without aborting. -/
theorem collectFrom_unassigned (decode : Nat → Opcode) (fuel address : Nat)
    (st : DisasmState)
    (hcode : (st.attrs address).code = false)
    (hassigned : (st.attrs address).assigned = false) :
    collectFrom decode (fuel + 1) address st =
      ({ st with warnings := st.warnings ++
          [DisWarning.unassignedArea address] }, false) := by
  simp only [collectFrom]
  rw [if_neg (by simp [hcode]), if_pos (by simp [hassigned])]

/-- Claim C3: in pass 1, decoding an instruction whose bytes 1…len−1
already carry `CODE` aborts the whole disassembly with an
`ambiguousOverlap` warning carrying both mnemonics and both addresses
(conjunct 1); a branch into a byte that is `CODE` but not `CODE_FIRST`
makes `disassembleForLabel` fail with an `ambiguousBranch` warning
carrying both mnemonics and both addresses (conjunct 2) and that failure
aborts the queue loop, retaining the state built so far (conjunct 3); an
abort only ever ends with one of the two ambiguity warnings — the
ambiguous overlap is the only fatal analysis error (conjunct 4); and
reaching an unassigned byte merely appends a warning, stops that one
trace (conjunct 5) and processing continues with the rest of the queue
(conjunct 6). -/
theorem collectLabels_ambiguity_handling (decode : Nat → Opcode)
    (st : DisasmState) (fuel address : Nat) (rest : List Nat) :
    ((st.attrs address).code = false → (st.attrs address).assigned = true →
      ∀ memAddress,
        firstOverlap st.attrs address (decode address).length = some memAddress →
        collectFrom decode (fuel + 1) address st =
          ({ st with warnings := st.warnings ++
              [DisWarning.ambiguousOverlap (decode address).name address
                (decode memAddress).name memAddress] }, true)) ∧
    (∀ opcode : Opcode, opcode.branchAddress = true →
      (st.attrs opcode.value).code = true →
      (st.attrs opcode.value).codeFirst = false →
      ∀ b, scanBackCodeFirst st.attrs opcode.value = some b →
        (disassembleForLabel decode st address opcode).2 = false ∧
        (disassembleForLabel decode st address opcode).1.warnings =
          st.warnings ++ [DisWarning.ambiguousBranch opcode.name address
            (decode b).name b]) ∧
    ((st.attrs address).code = false → (st.attrs address).assigned = true →
      firstOverlap st.attrs address (decode address).length = none →
      (disassembleForLabel decode (markCode st address (decode address).length)
        address (decode address)).2 = false →
      collectFrom decode (fuel + 1) address st =
        ((disassembleForLabel decode
            (markCode st address (decode address).length) address
            (decode address)).1, true)) ∧
    (AttrInv st.attrs →
      (∀ x, 1 ≤ (decode x).length ∧ (decode x).length ≤ 4) →
      (collectLabels decode fuel st).2 = true →
      ∃ pre w, IsAmbiguous w ∧
        (collectLabels decode fuel st).1.warnings = pre ++ [w]) ∧
    ((st.attrs address).code = false → (st.attrs address).assigned = false →
      collectFrom decode (fuel + 1) address st =
        ({ st with warnings := st.warnings ++
            [DisWarning.unassignedArea address] }, false)) ∧
    ((st.attrs address).code = false → (st.attrs address).assigned = false →
      st.queue = address :: rest →
      collectLabels decode (fuel + 2) st =
        collectLabels decode (fuel + 1)
          { st with queue := rest, warnings := st.warnings ++
              [DisWarning.unassignedArea address] }) := by
  refine ⟨?_, ?_, ?_, ?_, ?_, ?_⟩
  · intro hcode hassigned memAddress hov
    simp only [collectFrom]
    rw [if_neg (by simp [hcode]), if_neg (by simp [hassigned])]
    simp only [hov]
  · intro opcode hbr hcode hcf b hs
    constructor
    · simp [disassembleForLabel, hbr, hcode, hcf, hs]
    · simp [disassembleForLabel, hbr, hcode, hcf, hs]
  · intro hcode hassigned hov hfalse
    simp only [collectFrom]
    rw [if_neg (by simp [hcode]), if_neg (by simp [hassigned])]
    simp only [hov]
    rw [if_pos (by simp [hfalse])]
  · intro hinv hlen
    exact collectLabels_abort decode hlen fuel st hinv
  · intro hcode hassigned
    exact collectFrom_unassigned decode fuel address st hcode hassigned
  · intro hcode hassigned hq
    simp only [collectLabels, hq]
    have h5 : collectFrom decode (fuel + 1) address { st with queue := rest } =
        ({ st with queue := rest, warnings := st.warnings ++
            [DisWarning.unassignedArea address] }, false) :=
      collectFrom_unassigned decode fuel address { st with queue := rest }
        hcode hassigned
    rw [h5]
    simp

/-- `c3attrs` satisfies the attribute invariant: the only mid-instruction
byte (5) has its `CODE_FIRST` byte at 4. -/
theorem c3attrs_inv : AttrInv c3attrs := by
  intro a ha hcf
  by_cases h5 : a = 5
  · subst h5
    decide
  · exfalso
    rcases Nat.lt_or_ge a 6 with hlt | hge
    · interval_cases a <;> simp_all [c3attrs]
    · have h0 : a ≠ 0 := by omega
      have h1 : a ≠ 1 := by omega
      have h4 : a ≠ 4 := by omega
      have : c3attrs a = ⟨false, false, false⟩ := by
        simp [c3attrs, h0, h1, h4, h5]
      rw [this] at ha
      simp at ha

/-- All opcodes of `c3decode` have lengths between 1 and 4. -/
theorem c3decode_len : ∀ x, 1 ≤ (c3decode x).length ∧ (c3decode x).length ≤ 4 := by
  intro x
  by_cases h0 : x = 0
  · subst h0
    decide
  · by_cases h3 : x = 3
    · subst h3
      decide
    · have : c3decode x = c3nop := by simp [c3decode, h0, h3]
      rw [this]
      decide

/-- Witness for claim C3: on the concrete memory `c3attrs`, decoding at 0
overlaps the instruction byte at 1 and aborts with both mnemonics and
addresses; the jump `c3jp` into mid-instruction byte 5 fails with both
mnemonics and addresses; the whole queue run aborts and its last warning
is an ambiguity warning; and the unassigned address 7 merely warns, the
disassembly continuing with the remaining queue. -/
theorem collectLabels_ambiguity_handling_witness :
    (collectFrom c3decode 2 0 c3st =
      ({ c3st with warnings := c3st.warnings ++
          [DisWarning.ambiguousOverlap (c3decode 0).name 0
            (c3decode 1).name 1] }, true)) ∧
    ((disassembleForLabel c3decode c3st 8 c3jp).2 = false ∧
      (disassembleForLabel c3decode c3st 8 c3jp).1.warnings =
        c3st.warnings ++ [DisWarning.ambiguousBranch c3jp.name 8
          (c3decode 4).name 4]) ∧
    (∃ pre w, IsAmbiguous w ∧
      (collectLabels c3decode 2 c3st).1.warnings = pre ++ [w]) ∧
    (collectFrom c3decode 2 7 c3st =
      ({ c3st with warnings := c3st.warnings ++
          [DisWarning.unassignedArea 7] }, false)) ∧
    (collectLabels c3decode 3 c3st7 =
      collectLabels c3decode 2
        { c3st7 with queue := [], warnings := c3st7.warnings ++
            [DisWarning.unassignedArea 7] }) := by
  have h0 := collectLabels_ambiguity_handling c3decode c3st 1 0 []
  have h8 := collectLabels_ambiguity_handling c3decode c3st 1 8 []
  have h7 := collectLabels_ambiguity_handling c3decode c3st 1 7 []
  have h7q := collectLabels_ambiguity_handling c3decode c3st7 1 7 []
  have habort := collectLabels_ambiguity_handling c3decode c3st 2 0 []
  exact ⟨h0.1 rfl rfl 1 rfl,
    h8.2.1 c3jp rfl rfl rfl 4 rfl,
    habort.2.2.2.1 c3attrs_inv c3decode_len rfl,
    h7.2.2.2.2.1 rfl rfl,
    h7q.2.2.2.2.2 rfl rfl rfl⟩

/-- A successful backward scan lands on a `CODE_FIRST` byte at most 4
bytes below the scanned address. -/
theorem scanBack_characterization (attrs : Nat → MemAttr) (address b : Nat)
    (h : scanBackCodeFirst attrs address = some b) :
    (attrs b).codeFirst = true ∧
      (b = address - 1 ∨ b = address - 2 ∨ b = address - 3 ∨ b = address - 4) := by
  unfold scanBackCodeFirst at h
  split_ifs at h <;> simp_all

/-- Claim C5: a `DATA_LBL` at a `CODE ∧ ¬CODE_FIRST` address is moved to
the enclosing `CODE_FIRST` byte found at most 4 bytes backwards: the label
is re-created there via `setFoundLabel` with the same referrers and type,
the original entry is deleted, and `offsetLabels[original]` records the
negative offset `firstByte − original`.  Rendering an address that only
has an offset label produces the anchor's name followed by `'+'` and the
positive distance (for offset −1, the anchor name plus `"+1"`). -/
theorem adjustSelfModifying_spec (attrs : Nat → MemAttr) (address : Nat)
    (label : DisLabel) (labels : LabelMap) (offsets : Nat → Option Int)
    (addrStart : Nat)
    (h1 : (attrs address).code = true)
    (h2 : (attrs address).codeFirst = false)
    (h3 : 1 ≤ address)
    (h4 : scanBackCodeFirst attrs address = some addrStart) :
    ((adjustOneSelfModLabel attrs address label labels offsets).1 address =
      none) ∧
    ((adjustOneSelfModLabel attrs address label labels offsets).1 addrStart =
      setFoundLabel labels addrStart label.references label.type
        (attrs addrStart) addrStart) ∧
    ((adjustOneSelfModLabel attrs address label labels offsets).2 address =
      some ((addrStart : Int) - (address : Int))) ∧
    ((addrStart : Int) - (address : Int) < 0) ∧
    (address - addrStart ≤ 4) ∧
    ((attrs addrStart).codeFirst = true) ∧
    (∀ (lm : LabelMap) (om : Nat → Option Int) (v : Nat) (offs : Int)
        (L : DisLabel) (nm : String),
      lm v = none → om v = some offs → offs < 0 →
      0 ≤ (v : Int) + offs →
      lm ((v : Int) + offs).toNat = some L → L.name = some nm →
      convertToLabel lm om v = some (nm ++ "+" ++ toString (-offs))) := by
  obtain ⟨hcf, hor⟩ := scanBack_characterization attrs address addrStart h4
  have hlt : addrStart < address := by
    rcases hor with h | h | h | h <;> omega
  refine ⟨?_, ?_, ?_, ?_, ?_, hcf, ?_⟩
  · simp [adjustOneSelfModLabel, h4]
  · simp [adjustOneSelfModLabel, h4, hlt.ne]
  · simp [adjustOneSelfModLabel, h4]
  · omega
  · rcases hor with h | h | h | h <;> omega
  · intro lm om v offs L nm hv hov hneg hkey hL hnm
    simp only [convertToLabel, hv, hov]
    rw [if_neg (by omega : ¬ offs = 0)]
    rw [if_neg (by omega : ¬ (v : Int) + offs < 0)]
    simp only [hL]
    rw [if_neg (by omega : ¬ offs > 0)]
    simp [labelNameStr, hnm, String.append_assoc]

/-- Witness for claim C5: the `DATA_LBL` at 0x1001 (= 4097) moves to the
instruction start 0x1000 (= 4096) with offset −1, and rendering 4097
through the hook yields `"SELF_MOD1+1"`. -/
theorem adjustSelfModifying_spec_witness :
    ((adjustOneSelfModLabel c5attrs 4097 c5lbl c5labels (fun _ => none)).1
        4097 = none) ∧
    ((adjustOneSelfModLabel c5attrs 4097 c5lbl c5labels (fun _ => none)).1
        4096 =
      setFoundLabel c5labels 4096 c5lbl.references c5lbl.type
        (c5attrs 4096) 4096) ∧
    ((adjustOneSelfModLabel c5attrs 4097 c5lbl c5labels (fun _ => none)).2
        4097 = some (-1)) ∧
    convertToLabel c5render c5offsets 4097 = some "SELF_MOD1+1" := by
  have h := adjustSelfModifying_spec c5attrs 4097 c5lbl c5labels
    (fun _ => none) 4096 rfl rfl (by decide) rfl
  refine ⟨h.1, h.2.1, ?_, ?_⟩
  · rw [h.2.2.1]
    decide
  · have hr := h.2.2.2.2.2.2 c5render c5offsets 4097 (-1) c5anchor
      "SELF_MOD1" rfl rfl (by decide) (by decide) rfl rfl
    rw [hr]
    decide

/-- Addresses not in the processed list are never touched by the
local-label fold. -/
theorem foldl_processLocal_not_mem (addrsArray : List Nat)
    (startAddress : Nat) :
    ∀ (t : List Nat) (m : LabelMap) (x : Nat), x ∉ t →
      t.foldl (processLocalLabel addrsArray startAddress) m x = m x := by
  intro t
  induction t with
  | nil => intro m x _; rfl
  | cons a t ih =>
    intro m x hx
    have hxa : x ≠ a := fun h => hx (h ▸ List.mem_cons_self a t)
    have hxt : x ∉ t := fun h => hx (List.mem_cons_of_mem a h)
    simp only [List.foldl_cons]
    rw [ih _ _ hxt]
    by_cases has : a = startAddress
    · simp [processLocalLabel, has]
    · simp [processLocalLabel, has, hxa]

/-- On a duplicate-free list, the fold's effect at a processed address is
exactly one application of `localAdjust` (or nothing at the start
address). -/
theorem foldl_processLocal_mem (addrsArray : List Nat) (startAddress : Nat) :
    ∀ (t : List Nat) (m : LabelMap) (x : Nat), t.Nodup → x ∈ t →
      t.foldl (processLocalLabel addrsArray startAddress) m x =
        if x = startAddress then m x else localAdjust addrsArray x (m x) := by
  intro t
  induction t with
  | nil => intro m x _ hx; exact absurd hx (List.not_mem_nil x)
  | cons a t ih =>
    intro m x hnd hx
    simp only [List.foldl_cons]
    rcases List.mem_cons.mp hx with rfl | hxt
    · have hat : x ∉ t := (List.nodup_cons.mp hnd).1
      rw [foldl_processLocal_not_mem _ _ t _ x hat]
      by_cases has : x = startAddress
      · simp [processLocalLabel, has]
      · simp [processLocalLabel, has]
    · have hxa : x ≠ a := by
        rintro rfl
        exact ((List.nodup_cons.mp hnd).1 hxt).elim
      rw [ih _ _ (List.nodup_cons.mp hnd).2 hxt]
      have hstep : processLocalLabel addrsArray startAddress m a x = m x := by
        by_cases has : a = startAddress
        · simp [processLocalLabel, has]
        · simp [processLocalLabel, has, hxa]
      rw [hstep]

/-- Claim C6: for every address of a subroutine's reachable set other than
the start address that carries a non-fixed `CODE_LBL`/`CODE_SUB` label all
of whose referrers lie inside the set, pass 8 changes the label's type to
`CODE_LOCAL_LBL`, or to `CODE_LOCAL_LOOP` when some referrer `r` satisfies
`0 ≤ r − addr ≤ 128`; labels with a referrer outside the set and fixed
labels are left unchanged, as are addresses outside the set. -/
theorem findLocalLabels_spec (addrsArray : List Nat) (startAddress : Nat)
    (m : LabelMap) (hnd : addrsArray.Nodup) :
    (∀ addr, addr ∈ addrsArray → addr ≠ startAddress →
      ∀ l, m addr = some l →
      (l.type = NumberType.CODE_LBL ∨ l.type = NumberType.CODE_SUB) →
      l.isFixed = false →
      (∀ r ∈ l.references, r ∈ addrsArray) →
      findLocalLabelsIn addrsArray startAddress m addr =
        some { l with type :=
          if ∃ r ∈ l.references,
              0 ≤ (r : Int) - (addr : Int) ∧ (r : Int) - (addr : Int) ≤ 128
          then NumberType.CODE_LOCAL_LOOP
          else NumberType.CODE_LOCAL_LBL }) ∧
    (∀ addr, addr ∈ addrsArray →
      ∀ l, m addr = some l →
      ((∃ r ∈ l.references, r ∉ addrsArray) ∨ l.isFixed = true) →
      findLocalLabelsIn addrsArray startAddress m addr = m addr) ∧
    (∀ x, x ∉ addrsArray →
      findLocalLabelsIn addrsArray startAddress m x = m x) := by
  refine ⟨?_, ?_, ?_⟩
  · intro addr hmem hne l hl htype hfix hin
    unfold findLocalLabelsIn
    rw [foldl_processLocal_mem addrsArray startAddress addrsArray m addr hnd
      hmem, if_neg hne, hl]
    have hnt : ¬(l.type ≠ NumberType.CODE_LBL ∧
        l.type ≠ NumberType.CODE_SUB) := by
      rcases htype with h | h <;> simp [h]
    have hnf : ¬(l.isFixed = true) := by simp [hfix]
    have hno : ¬(∃ r ∈ l.references, r ∉ addrsArray) := by
      rintro ⟨r, hr, hnr⟩
      exact hnr (hin r hr)
    simp only [localAdjust]
    rw [if_neg hnt, if_neg hnf, if_neg hno]
  · intro addr hmem l hl hcond
    unfold findLocalLabelsIn
    rw [foldl_processLocal_mem addrsArray startAddress addrsArray m addr hnd
      hmem]
    by_cases hstart : addr = startAddress
    · rw [if_pos hstart]
    · rw [if_neg hstart, hl]
      simp only [localAdjust]
      split_ifs <;> simp_all
  · intro x hx
    exact foldl_processLocal_not_mem addrsArray startAddress addrsArray m x hx

/-- Witness for claim C6: over the set `[100, 103, 110]` with start 100,
the `CODE_SUB` at 103 (whose only referrer 110 lies 7 bytes forward inside
the set) becomes `CODE_LOCAL_LOOP`, while the label at 110 with the
outside referrer 50 is unchanged, as is any address outside the set. -/
theorem findLocalLabels_spec_witness :
    findLocalLabelsIn [100, 103, 110] 100 c6map 103 =
      some { c6l103 with type := NumberType.CODE_LOCAL_LOOP } ∧
    findLocalLabelsIn [100, 103, 110] 100 c6map 110 = c6map 110 ∧
    findLocalLabelsIn [100, 103, 110] 100 c6map 2000 = c6map 2000 := by
  have h := findLocalLabels_spec [100, 103, 110] 100 c6map (by decide)
  refine ⟨?_, ?_, h.2.2 2000 (by decide)⟩
  · have h103 := h.1 103 (by decide) (by decide) c6l103 rfl (Or.inr rfl) rfl
      (by decide)
    rw [h103]
    decide
  · exact h.2.1 110 (by decide) c6l110 rfl (Or.inl (by decide))

/-- The visited list grows by a suffix of newly visited addresses, and the
accumulated cyclomatic complexity is the sum of the per-instruction
contributions over exactly those addresses. -/
theorem countAS_cc (labels : LabelMap) (attrs : Nat → MemAttr)
    (decode : Nat → Opcode) :
    ∀ fuel address visited,
      ∃ newAddrs : List Nat,
        (countAddressStatistic labels attrs decode fuel address visited).2 =
          visited ++ newAddrs ∧
        (countAddressStatistic labels attrs decode fuel address
            visited).1.CyclomaticComplexity =
          (newAddrs.map (fun a => contribOf (decode a))).sum := by
  intro fuel
  induction fuel with
  | zero =>
    intro address visited
    exact ⟨[], by simp [countAddressStatistic], by simp [countAddressStatistic]⟩
  | succ n ih =>
    intro address visited
    simp only [countAddressStatistic]
    by_cases hA : (attrs address).assigned = false
    · rw [if_pos hA]
      exact ⟨[], by simp, by simp⟩
    · rw [if_neg hA]
      by_cases hV : address ∈ visited
      · rw [if_pos hV]
        exact ⟨[], by simp, by simp⟩
      · rw [if_neg hV]
        by_cases hbc : ((decode address).branchAddress &&
            !(decode address).callFlag &&
            !(isSUBLabel (labels (decode address).value))) = true
        · rw [if_pos hbc]
          obtain ⟨nB, hB2, hB1⟩ := ih (decode address).value
            (visited ++ [address])
          by_cases hstop : ((decode address).stop ||
              isSUBLabel (labels (address + (decode address).length))) = true
          · rw [if_pos hstop]
            refine ⟨[address] ++ nB, ?_, ?_⟩
            · rw [hB2]
              simp
            · simp [statsPlus, hB1]
          · rw [if_neg hstop]
            obtain ⟨nN, hN2, hN1⟩ := ih (address + (decode address).length)
              ((countAddressStatistic labels attrs decode n
                (decode address).value (visited ++ [address])).2)
            refine ⟨[address] ++ nB ++ nN, ?_, ?_⟩
            · rw [hN2, hB2]
              simp
            · simp [statsPlus, hB1, hN1]
        · rw [if_neg hbc]
          by_cases hstop : ((decode address).stop ||
              isSUBLabel (labels (address + (decode address).length))) = true
          · rw [if_pos hstop]
            exact ⟨[address], by simp, by simp [statsPlus]⟩
          · rw [if_neg hstop]
            obtain ⟨nN, hN2, hN1⟩ := ih (address + (decode address).length)
              (visited ++ [address])
            refine ⟨[address] ++ nN, ?_, ?_⟩
            · rw [hN2]
              simp
            · simp [statsPlus, hN1]

/-- When no opcode is both a branch and a `"RET "`-mnemonic (true of the
Z80 opcode table, where conditional returns carry no immediate), the sum
of contributions splits into the two filter counts of claim C8. -/
theorem sum_contrib_split (decode : Nat → Opcode)
    (hsep : ∀ a, ¬((decode a).branchAddress = true ∧
      isCondRET (decode a).name = true)) :
    ∀ l : List Nat,
      (l.map (fun a => contribOf (decode a))).sum =
        (l.filter (fun a => (decode a).branchAddress &&
          containsComma (decode a).name)).length +
        (l.filter (fun a =>
          isCondRET (decode a).name)).length := by
  intro l
  induction l with
  | nil => rfl
  | cons a t ih =>
    simp only [List.map_cons, List.sum_cons, List.filter_cons]
    by_cases hbr : (decode a).branchAddress = true
    · have hret : isCondRET (decode a).name = false := by
        rcases Bool.eq_false_or_eq_true
          (isCondRET (decode a).name) with h | h
        · exact absurd ⟨hbr, h⟩ (hsep a)
        · exact h
      by_cases hcomma : containsComma (decode a).name = true
      · have hc : contribOf (decode a) = 1 := by
          simp [contribOf, hbr, hcomma]
        rw [hc, ih]
        simp [hbr, hcomma, hret]
        omega
      · have hcomma' : containsComma (decode a).name = false := by
          simpa using hcomma
        have hc : contribOf (decode a) = 0 := by
          simp [contribOf, hbr, hcomma']
        rw [hc, ih]
        simp [hbr, hcomma', hret]
    · have hbr' : (decode a).branchAddress = false := by simpa using hbr
      by_cases hret : isCondRET (decode a).name = true
      · have hc : contribOf (decode a) = 1 := by
          simp [contribOf, hbr', hret]
        rw [hc, ih]
        simp [hbr', hret]
        omega
      · have hret' : isCondRET (decode a).name = false := by
          simpa using hret
        have hc : contribOf (decode a) = 0 := by
          simp [contribOf, hbr', hret']
        rw [hc, ih]
        simp [hbr', hret']

/-- Claim C8: for a counted label, the computed cyclomatic complexity is
1 plus the number of reachable instructions with a branch address whose
mnemonic contains a comma, plus the number of reachable instructions
whose upper-cased mnemonic starts with `"RET "`; in particular it is at
least 1.  The hypothesis `hsep` (no opcode is both) holds of the Z80
opcode table, where returns carry no branch immediate. -/
theorem countStatistics_cyclomatic (labels : LabelMap)
    (attrs : Nat → MemAttr) (decode : Nat → Opcode) (fuel address : Nat)
    (hsep : ∀ a, ¬((decode a).branchAddress = true ∧
      isCondRET (decode a).name = true)) :
    ((countStatisticsFor labels attrs decode fuel address).CyclomaticComplexity =
      1 + ((countAddressStatistic labels attrs decode fuel address []).2.filter
            (fun a => (decode a).branchAddress &&
              containsComma (decode a).name)).length
        + ((countAddressStatistic labels attrs decode fuel address []).2.filter
            (fun a =>
              isCondRET (decode a).name)).length) ∧
    1 ≤ (countStatisticsFor labels attrs decode fuel address).CyclomaticComplexity := by
  obtain ⟨newAddrs, h2, h1⟩ := countAS_cc labels attrs decode fuel address []
  have hvis : (countAddressStatistic labels attrs decode fuel address []).2 =
      newAddrs := by
    simpa using h2
  constructor
  · simp only [countStatisticsFor]
    rw [h1, hvis, sum_contrib_split decode hsep newAddrs]
    omega
  · simp only [countStatisticsFor]
    omega

/-- Witness for claim C8: with `CALL Z,nn` at 0 and `RET Z` at 3 followed
by `RET`, the cyclomatic complexity is 1 + 1 conditional branch + 1
conditional return = 3. -/
theorem countStatistics_cyclomatic_witness :
    (countStatisticsFor (fun _ => none) c8attrs c8decode 6 0).CyclomaticComplexity = 3 ∧
    1 ≤ (countStatisticsFor (fun _ => none) c8attrs c8decode 6 0).CyclomaticComplexity := by
  have hsep : ∀ a, ¬((c8decode a).branchAddress = true ∧
      isCondRET (c8decode a).name = true) := by
    intro a
    by_cases h0 : a = 0
    · subst h0
      decide
    · by_cases h3 : a = 3
      · subst h3
        decide
      · have he : c8decode a = c8ret := by simp [c8decode, h0, h3]
        rw [he]
        decide
  have h := countStatistics_cyclomatic (fun _ => none) c8attrs c8decode 6 0 hsep
  refine ⟨?_, h.2⟩
  rw [h.1]
  decide

/-- Claim C9 (failing case): when `statisticsMax.CC` equals
`statisticsMin.CC` — e.g. a program whose only counted subroutine has
cyclomatic complexity 1 — the interpolation factor divides by zero and
the computed font size is `NaN`, not a number between 13 and 40. -/
theorem callGraphFontSize_nan_at_equal_minmax :
    callGraphFontSize 1 1 1 = JSNum.nan ∧
    fontSizeInBounds (callGraphFontSize 1 1 1) = false := by
  constructor <;>
    norm_num [callGraphFontSize, jsDiv, jsMul, jsAdd, fontSizeInBounds]

/-- Claim C10: calling `getDisassembly` before `disassemble()` has set
`disassembledLines` emits the `'No disassembly was done.'` warning,
returns the empty string, and leaves the whole state unchanged. -/
theorem getDisassembly_no_lines (d : Disassembler)
    (h : d.disassembledLines = none) :
    getDisassembly d = (d, [DisWarning.noDisassembly], "") := by
  simp [getDisassembly, h]

/-- Witness for claim C10: the fresh instance `c10dis`. -/
theorem getDisassembly_no_lines_witness :
    getDisassembly c10dis = (c10dis, [DisWarning.noDisassembly], "") :=
  getDisassembly_no_lines c10dis rfl

/-- The index-based trace loop computes, from cursor `k`, the union of
the running buffer with the structurally defined address set of the
remaining suffix. -/
theorem traceLoopSet_eq (t : List Char) :
    ∀ fuel k buffer, t.length ≤ k + fuel →
      traceLoopSet t fuel k buffer = buffer ∪ mameSpecSet (t.drop k) := by
  intro fuel
  induction fuel with
  | zero =>
    intro k buffer hb
    have hdrop : t.drop k = [] := by
      apply List.drop_eq_nil_of_le
      omega
    rw [hdrop]
    have hempty : mameSpecSet [] = ∅ := by
      rw [mameSpecSet]
      simp
    rw [hempty]
    simp [traceLoopSet]
  | succ n ih =>
    intro k buffer hb
    simp only [traceLoopSet]
    rw [mameSpecSet]
    have hdd : (t.drop k).drop 5 = t.drop (k + 5) := by
      rw [List.drop_drop]
    by_cases hm : ((t.drop k).take 5).length = 5 ∧
        ((t.drop k).take 5).getD 4 ' ' = ':'
    · rw [if_pos hm, dif_pos hm, hdd]
      rcases hface : (t.drop (k + 5)).findIdx? (fun c => c = '\n') with _ | i
      · simp [hface, Finset.union_assoc]
      · simp only [hface]
        rw [ih (k + 5 + i + 1) (buffer ∪ parsedValueSet ((t.drop k).take 5))
          (by omega)]
        rw [List.drop_drop]
        have harith : k + 5 + (i + 1) = k + 5 + i + 1 := by omega
        rw [harith, Finset.union_assoc]
    · rw [if_neg hm, dif_neg hm]
      rcases hface : (t.drop k).findIdx? (fun c => c = '\n') with _ | i
      · simp [hface]
      · simp only [hface]
        rw [ih (k + i + 1) buffer (by omega)]
        rw [List.drop_drop]
        have harith : k + (i + 1) = k + i + 1 := by omega
        rw [harith]

/-- Claim C7 is false as stated: the text `"zzzz:"` has exactly one line
prefix that is five characters long with `':'` as the fifth character,
yet `useMameTraceFile` queues no address for it, because JavaScript
`parseInt("zzzz", 16)` is `NaN` (the prefix has no hexadecimal digits),
and `buffer[NaN]` sets no array index. -/
theorem useMameTraceFile_counterexample :
    ((lineFields czTrace).filter matchingField).length = 1 ∧
    useMameTraceFile czTrace = [] := by
  refine ⟨by decide, ?_⟩
  have hloop : traceLoopSet czTrace (czTrace.length + 1) 0 ∅ = ∅ := by decide
  simp only [useMameTraceFile]
  rw [if_neg (by decide)]
  rw [hloop]
  simp

/-- Every address recorded from a parsed field is below `MAX_MEM_SIZE`:
the source's `buffer[addr] = true` only lands on an index the final loop
revisits when the parsed value is in range. -/
theorem parsedValueSet_lt (p : List Char) :
    ∀ a ∈ parsedValueSet p, a < MAX_MEM_SIZE := by
  intro a ha
  unfold parsedValueSet at ha
  split at ha
  next v heq =>
    split at ha
    next hr =>
      simp at ha
      subst ha
      unfold MAX_MEM_SIZE
      omega
    next hr =>
      simp at ha
  next heq =>
    simp at ha

/-- All addresses of the structurally defined trace set are below
`MAX_MEM_SIZE`. -/
theorem mameSpecSet_lt :
    ∀ (n : Nat) (t : List Char), t.length ≤ n →
      ∀ a ∈ mameSpecSet t, a < MAX_MEM_SIZE := by
  intro n
  induction n with
  | zero =>
    intro t ht a ha
    have ht0 : t = [] := List.length_eq_zero.mp (by omega)
    subst ht0
    rw [mameSpecSet] at ha
    simp at ha
  | succ n ih =>
    intro t ht a ha
    rw [mameSpecSet] at ha
    by_cases hm : ((t.take 5).length = 5 ∧ (t.take 5).getD 4 ' ' = ':')
    · rw [dif_pos hm] at ha
      rcases Finset.mem_union.mp ha with h | h
      · exact parsedValueSet_lt _ a h
      · rcases hface : (t.drop 5).findIdx? (fun c => c = '\n') with _ | i
        · rw [hface] at h
          simp at h
        · rw [hface] at h
          refine ih ((t.drop 5).drop (i + 1)) ?_ a h
          have h5 : 5 ≤ t.length := by
            have h1 := hm.1
            rw [List.length_take] at h1
            omega
          simp only [List.length_drop]
          omega
    · rw [dif_neg hm] at ha
      rcases hface : t.findIdx? (fun c => c = '\n') with _ | i
      · rw [hface] at ha
        simp at ha
      · rw [hface] at ha
        refine ih (t.drop (i + 1)) ?_ a ha
        have hne : t ≠ [] := by
          rintro rfl
          simp at hface
        have h1 : 1 ≤ t.length := List.length_pos.mpr hne
        simp only [List.length_drop]
        omega

/-- Claim C7 (amended): a text shorter than five characters queues
nothing; otherwise the queued list is strictly ascending (hence
deduplicated) and contains exactly the addresses of `mameSpecSet` — the
five-character fields at the start and after each remaining newline
whose fifth character is `':'`, parsed with JavaScript `parseInt`
base-16 semantics, fields without hex digits contributing nothing, a
matched field consuming five characters before the newline search. -/
theorem useMameTraceFile_spec (t : List Char) :
    (t.length < 5 → useMameTraceFile t = []) ∧
    (¬ t.length < 5 →
      ((useMameTraceFile t).Sorted (· < ·) ∧
       (useMameTraceFile t).Nodup ∧
       (∀ a, a ∈ useMameTraceFile t ↔ a ∈ mameSpecSet t))) := by
  constructor
  · intro h
    simp [useMameTraceFile, h]
  · intro h
    have hset : traceLoopSet t (t.length + 1) 0 ∅ = mameSpecSet t := by
      rw [traceLoopSet_eq t (t.length + 1) 0 ∅ (by omega)]
      simp
    refine ⟨?_, ?_, ?_⟩
    · simp only [useMameTraceFile]
      rw [if_neg h]
      exact List.Pairwise.filter _ (List.pairwise_lt_range MAX_MEM_SIZE)
    · simp only [useMameTraceFile]
      rw [if_neg h]
      exact List.Nodup.filter _ (List.nodup_range MAX_MEM_SIZE)
    · intro a
      simp only [useMameTraceFile]
      rw [if_neg h, hset]
      simp only [List.mem_filter, List.mem_range, decide_eq_true_eq]
      constructor
      · rintro ⟨_, hp⟩
        exact hp
      · intro ha
        exact ⟨mameSpecSet_lt t.length t le_rfl a ha, ha⟩

/-- Witness for the amended claim C7: the trace `c7trace` (fields
`8000:`, `0100:`, `0100:`) is long enough, and its queue is strictly
ascending, duplicate-free and agrees with the structural address set. -/
theorem useMameTraceFile_spec_witness :
    (useMameTraceFile c7trace).Sorted (· < ·) ∧
    (useMameTraceFile c7trace).Nodup ∧
    (256 ∈ useMameTraceFile c7trace ↔ 256 ∈ mameSpecSet c7trace) := by
  have h := (useMameTraceFile_spec c7trace).2 (by decide)
  exact ⟨h.1, h.2.1, h.2.2 256⟩
